import Mathlib

/-!
Shallow embedding of the stock-update pipeline of
`src/app/services/stockUpdate.js` (watson-stock-advisor).

JavaScript values are modelled as follows:
* articles and stock records become structures over `String`/`Int` fields;
* a JS object used as a date→price map becomes an association list
  `List (String × Int)` with JS assignment semantics (existing key keeps its
  position, new key is appended);
* promise results become explicit outcome values; the external collaborators
  (discovery service, market-data API, page fetcher) become oracle functions
  passed as parameters;
* repository code that is not part of the sources (`app/util/utils.js`,
  `config.js`) is modelled from the specification; each such definition is
  marked `Modelled from the spec:` in its doc comment.
-/

/-- An article as produced by `parseArticle` (stockUpdate.js:353-361); the
`imageURL` field is attached later by `insertNewArticles`. -/
structure Article where
  url : String
  sentiment : String := ""
  date : String := ""
  title : String := ""
  source : String := ""
  imageURL : Option String := none
deriving DecidableEq, Repr

/-- A date/price pair as used by `getPairForDate` (stockUpdate.js:216-250). -/
structure PricePair where
  date : String
  price : Int
deriving DecidableEq, Repr

/-- A stock record (one Cloudant document): company, ticker, article history,
price history map. -/
structure StockRecord where
  company : String
  ticker : String
  history : List Article
  price_history : List (String × Int)
deriving DecidableEq, Repr

/-- Modelled from the spec: `utils.avDateStringToDate` (app/util/utils.js is
not in the sources) parses a market-data date string `"YYYY-MM-DD"` into a JS
`Date`.  Chronological order of the parsed dates coincides with lexicographic
order of the fixed-width strings, so the model keeps the character sequence
and every comparison of parsed dates becomes a lexicographic comparison. -/
def avDateStringToDate (s : String) : List Char := s.data

/-- Modelled from the spec: `utils.convertArticleDateToAVDate` converts an
article date (an ISO timestamp such as `"2018-01-25T18:43:04Z"`) to the
market-data format `"YYYY-MM-DD"`; for such timestamps this is the first ten
characters. -/
def convertArticleDateToAVDate (s : String) : String := s.take 10

/-- `sortArticles` (stockUpdate.js:31-38) sorts most-recent-first with the
comparator `new Date(b.date) - new Date(a.date)`; `a` stays before `b`
exactly when `b.date ≤ a.date` (dates compared as in `avDateStringToDate`).
`Array.prototype.sort` is stable (ES2019), modelled by a stable insertion
sort with that relation. -/
def articleLe (a b : Article) : Prop :=
  avDateStringToDate b.date ≤ avDateStringToDate a.date

instance : DecidableRel articleLe := fun a b =>
  inferInstanceAs (Decidable (avDateStringToDate b.date ≤ avDateStringToDate a.date))

instance : IsTotal Article articleLe :=
  ⟨fun a b => le_total (avDateStringToDate b.date) (avDateStringToDate a.date)⟩

instance : IsTrans Article articleLe :=
  ⟨fun _ _ _ hab hbc => le_trans hbc hab⟩

/-- `sortArticles` (stockUpdate.js:31-38): sort from most to least recent. -/
def sortArticles (articles : List Article) : List Article :=
  List.insertionSort articleLe articles

/-- `articleContains` (stockUpdate.js:46-53): linear scan for an article with
the same `url`. -/
def articleContains (article : Article) : List Article → Bool
  | [] => false
  | a :: rest => if article.url = a.url then true else articleContains article rest

/-- The `newArticles` filter of `updateStocksData` (stockUpdate.js:283-289):
keep the incoming articles that are not already present by URL. -/
def filterNewArticles (incoming existing : List Article) : List Article :=
  incoming.filter (fun article => !(articleContains article existing))

/-- The capped merge of `insertNewArticles` (stockUpdate.js:155-162):
concatenate, sort most-recent-first, and when the configured maximum
(`config.MAX_ARTICLES_PER_COMPANY`, modelled as the parameter `maxA`) is
exceeded keep only the first `maxA` entries (`slice(0, maxA)`). -/
def mergeArticles (maxA : Nat) (existing newOnes : List Article) : List Article :=
  let updatedArticles := sortArticles (existing ++ newOnes)
  if updatedArticles.length > maxA then updatedArticles.take maxA else updatedArticles

/-- One merge step of the pipeline restricted to its pure article part: the
URL-dedup filter of `updateStocksData` followed by the capped merge of
`insertNewArticles`. -/
def mergeArticlesFull (maxA : Nat) (existing incoming : List Article) : List Article :=
  mergeArticles maxA existing (filterNewArticles incoming existing)

/-- The loop of `getPairForDate` (stockUpdate.js:225-241).  `prev` is
`priceList[i-1]` (`none` at `i = 0`), which by `var` hoisting is also the
current value of the variable `thisPair` before iteration `i`.
`Sum.inl r` models an early `return r` from inside the loop; `Sum.inr p`
models falling out of the loop with `thisPair = p` (`none` when the loop
never ran). -/
def getPairLoop (date : String) : Option PricePair → List PricePair → PricePair ⊕ Option PricePair
  | prev, [] => Sum.inr prev
  | prev, thisPair :: rest =>
    if thisPair.date = date then Sum.inl thisPair
    else if avDateStringToDate date < avDateStringToDate thisPair.date then
      Sum.inl { date := date,
                price := match prev with
                  | some previous => previous.price
                  | none => thisPair.price }
    else getPairLoop date (some thisPair) rest

/-- `getPairForDate` (stockUpdate.js:216-250).  The leading `!date` guard is
JS falsiness: only the empty string is falsy among strings.  After the loop,
the fallback returns the hoisted `thisPair` when the list is non-empty and the
target date is after the last pair's date. -/
def getPairForDate (date : String) (priceList : List PricePair) : Option PricePair :=
  if date = "" then none
  else
    match getPairLoop date none priceList with
    | Sum.inl pair => some pair
    | Sum.inr thisPair =>
      match priceList.getLast? with
      | some lastPair =>
        if avDateStringToDate lastPair.date < avDateStringToDate date then thisPair
        else none
      | none => none

/-- JS truthiness of an optional string attribute value: `undefined` and the
empty string are falsy. -/
def truthy : Option String → Bool
  | none => false
  | some s => !(s == "")

/-- The result of loading an article page with cheerio, restricted to the two
queries the code performs (`$.root().find('img').attr('src')` and
`$('body').find('img').attr('src')`, stockUpdate.js:72-76).  The HTML parser
is an external collaborator, so a page is modelled by those two answers. -/
structure Page where
  rootImgSrc : Option String
  bodyImgSrc : Option String
deriving DecidableEq, Repr

/-- Outcome of the `request(url, ...)` page fetch: transport error or HTML. -/
inductive FetchResult where
  | transportError (err : String)
  | success (page : Page)
deriving DecidableEq, Repr

/-- Settled state of a JS promise: resolved with a value, or rejected.
(`getImageForArticle` always rejects with no reason, so no payload.) -/
inductive PromiseOutcome (α : Type) where
  | resolvedWith (value : α)
  | rejectedP
deriving DecidableEq, Repr

/-- A successful image resolution `{url: url, imageURL: imageURL}`. -/
structure ImageResult where
  url : String
  imageURL : String
deriving DecidableEq, Repr

/-- Character-list test that the second list begins with the first. -/
def charsLead : List Char → List Char → Bool
  | [], _ => true
  | _ :: _, [] => false
  | p :: ps, c :: cs => p == c && charsLead ps cs

/-- `String.prototype.startsWith`, via the underlying character lists. -/
def strStartsWith (s pre : String) : Bool := charsLead pre.data s.data

/-- Modelled from the spec: `utils.extractHTTPURL` (app/util/utils.js is not
in the sources) returns the image `src` itself when it is already an absolute
HTTP URL, and nothing otherwise. -/
def extractHTTPURL (s : String) : Option String :=
  if strStartsWith s "http://" || strStartsWith s "https://" then some s else none

/-- Splits a character list at the first occurrence of `://`: the characters
before it and the characters after it. -/
def splitAtSchemeSep : List Char → Option (List Char × List Char)
  | [] => none
  | ':' :: '/' :: '/' :: rest => some ([], rest)
  | c :: rest =>
    match splitAtSchemeSep rest with
    | some (before, after) => some (c :: before, after)
    | none => none

/-- Modelled from the spec: `utils.extractDomain` (app/util/utils.js is not
in the sources) returns the scheme+host of a URL: everything up to the first
`/` after the `://` separator (the URL itself when it has no separator). -/
def extractDomain (url : String) : String :=
  match splitAtSchemeSep url.data with
  | some (scheme, rest) =>
    String.mk (scheme ++ "://".data ++ rest.takeWhile (fun c => !(c == '/')))
  | none => url

/-- The `imgSrc` selection of `getImageForArticle` (stockUpdate.js:73-76):
the root `<img>` src, or if that is falsy the `<body>` `<img>` src. -/
def effectiveImgSrc (page : Page) : Option String :=
  if truthy page.rootImgSrc then page.rootImgSrc else page.bodyImgSrc

/-- `getImageForArticle` (stockUpdate.js:61-97).  On a transport error the
promise is rejected (`rej()`, line 93); on success with no truthy `img src`
it resolves with no value (`res()`, line 68); otherwise it resolves with
`{url, imageURL}` where a non-absolute src is joined to the article URL's
scheme+host after stripping one leading slash (line 85). -/
def getImageForArticle (fetch : String → FetchResult) (article : Article) :
    PromiseOutcome (Option ImageResult) :=
  match fetch article.url with
  | FetchResult.transportError _ => PromiseOutcome.rejectedP
  | FetchResult.success page =>
    match effectiveImgSrc page with
    | some imgSrc =>
      if imgSrc = "" then PromiseOutcome.resolvedWith none
      else
        let imageURL :=
          match extractHTTPURL imgSrc with
          | some httpURL => httpURL
          | none =>
            extractDomain article.url ++ "/" ++
              (if strStartsWith imgSrc "/" then imgSrc.drop 1 else imgSrc)
        PromiseOutcome.resolvedWith (some { url := article.url, imageURL := imageURL })
    | none => PromiseOutcome.resolvedWith none

/-- `getImages` (stockUpdate.js:103-135): per-article promises are caught
(a rejection becomes the value `undefined`), `Promise.all` of the caught
promises is awaited, and only results with a truthy `url` are kept. -/
def getImages (fetch : String → FetchResult) (articles : List Article) : List ImageResult :=
  (articles.map (fun a => getImageForArticle fetch a)).filterMap fun o =>
    match o with
    | PromiseOutcome.rejectedP => none
    | PromiseOutcome.resolvedWith none => none
    | PromiseOutcome.resolvedWith (some r) => if r.url = "" then none else some r

/-- The inner attachment loop of `insertNewArticles` (stockUpdate.js:147-153):
set `imageURL` on the first new article whose `url` equals the image result's
`url` (the loop `break`s after the first match). -/
def attachOne (imgResult : ImageResult) : List Article → List Article
  | [] => []
  | a :: rest =>
    if a.url = imgResult.url then { a with imageURL := some imgResult.imageURL } :: rest
    else a :: attachOne imgResult rest

/-- The outer attachment loop of `insertNewArticles` (stockUpdate.js:145-154):
apply each image result in order. -/
def attachImages (newArticles : List Article) (imgResults : List ImageResult) : List Article :=
  imgResults.foldl (fun arts r => attachOne r arts) newArticles

/-- `insertNewArticles` (stockUpdate.js:143-174) restricted to its effect on
the record (the database upsert and the completion callback carry no data):
resolve images for the new articles, attach them by URL, then merge the new
articles into the record's history with the capped most-recent-first merge. -/
def insertNewArticles (maxA : Nat) (fetch : String → FetchResult)
    (stockDatum : StockRecord) (newArticles : List Article) : StockRecord :=
  let imgResults := getImages fetch newArticles
  let attached := attachImages newArticles imgResults
  { stockDatum with history := mergeArticles maxA stockDatum.history attached }

/-- JS object assignment `m[date] = price` on a date→price map modelled as an
association list: an existing key keeps its position, a new key is appended. -/
def setPrice (m : List (String × Int)) (date : String) (price : Int) : List (String × Int) :=
  if m.any (fun e => e.1 == date) then
    m.map (fun e => if e.1 = date then (date, price) else e)
  else m ++ [(date, price)]

/-- The price-history merge of `getLatestStockPrices` (stockUpdate.js:196-202):
copy every entry of the newly retrieved history over the existing map (new
values win on date collision). -/
def mergePriceMap (existing updated : List (String × Int)) : List (String × Int) :=
  updated.foldl (fun m e => setPrice m e.1 e.2) existing

/-- `getLatestStockPrices` (stockUpdate.js:182-208): reject when the record
has no (falsy) ticker, otherwise fetch the price history from the market-data
collaborator `prices` and merge it into the record; a fetch failure rejects. -/
def getLatestStockPrices (prices : String → Except String (List (String × Int)))
    (stockDatum : StockRecord) : Except String StockRecord :=
  if stockDatum.ticker = "" then Except.error ""
  else
    match prices stockDatum.ticker with
    | Except.ok updatedHistory =>
      Except.ok { stockDatum with
        price_history := mergePriceMap stockDatum.price_history updatedHistory }
    | Except.error e => Except.error e

/-- Ascending-by-date order on price pairs, used by the spec-modelled
`convertPriceMapToList`. -/
def pairLe (p q : PricePair) : Prop :=
  avDateStringToDate p.date ≤ avDateStringToDate q.date

instance : DecidableRel pairLe := fun p q =>
  inferInstanceAs (Decidable (avDateStringToDate p.date ≤ avDateStringToDate q.date))

instance : IsTotal PricePair pairLe :=
  ⟨fun p q => le_total (avDateStringToDate p.date) (avDateStringToDate q.date)⟩

instance : IsTrans PricePair pairLe :=
  ⟨fun _ _ _ hab hbc => le_trans hab hbc⟩

/-- Modelled from the spec: `utils.convertPriceMapToList` (app/util/utils.js
is not in the sources) turns the date→price map into a list of pairs sorted
ascending by date. -/
def convertPriceMapToList (m : List (String × Int)) : List PricePair :=
  List.insertionSort pairLe (m.map fun e => { date := e.1, price := e.2 })

/-- `Array.from(new Set(...))` (stockUpdate.js:303): deduplicate keeping the
first occurrence of each element. -/
def dedupKeepFirst (seen : List String) : List String → List String
  | [] => []
  | d :: rest =>
    if seen.contains d then dedupKeepFirst seen rest
    else d :: dedupKeepFirst (d :: seen) rest

/-- The per-company body of `updateStocksData` (stockUpdate.js:280-329),
acting on an already located or created record.  When there are new articles,
the price refresh runs; on success the price history is trimmed to the dates
of existing and new articles (stockUpdate.js:295-315) and the articles are
inserted into the refreshed record; on failure (`catch`, stockUpdate.js:319)
the articles are inserted into the untouched record.  Articles are modelled
with their `date` field always present, so the `typeof art.date !=
'undefined'` filter (stockUpdate.js:298) keeps every article. -/
def processCompany (maxA : Nat) (fetch : String → FetchResult)
    (prices : String → Except String (List (String × Int)))
    (stockDatum : StockRecord) (articles : List Article) : StockRecord :=
  let existingArticles := stockDatum.history
  let newArticles := filterNewArticles articles existingArticles
  if newArticles.length > 0 then
    match getLatestStockPrices prices stockDatum with
    | Except.ok updatedStock =>
      let neededDates := dedupKeepFirst []
        ((existingArticles ++ newArticles).map (fun a => convertArticleDateToAVDate a.date))
      let sortedPrices := convertPriceMapToList updatedStock.price_history
      let filteredPriceHistory := neededDates.foldl (fun m d =>
        match getPairForDate d sortedPrices with
        | some pair => setPrice m pair.date pair.price
        | none => m) []
      insertNewArticles maxA fetch
        { updatedStock with price_history := filteredPriceHistory } newArticles
    | Except.error _ => insertNewArticles maxA fetch stockDatum newArticles
  else stockDatum

/-- A raw Watson Discovery result, restricted to the fields read by
`parseArticle` (stockUpdate.js:353-361). -/
structure RawResult where
  url : String
  sentimentLabel : String
  crawl_date : String
  title : String
  forum_title : String
deriving DecidableEq, Repr

/-- `parseArticle` (stockUpdate.js:353-361). -/
def parseArticle (result : RawResult) : Article :=
  { url := result.url, sentiment := result.sentimentLabel, date := result.crawl_date,
    title := result.title, source := result.forum_title, imageURL := none }

/-- `parseResults` (stockUpdate.js:368-374). -/
def parseResults (results : List RawResult) : List Article :=
  results.map parseArticle

/-- The `filterDuplicates` closure of `getArticleDataForCompany`
(stockUpdate.js:384-395): keep the first article seen for each URL. -/
def filterDuplicates (seen : List String) : List Article → List Article
  | [] => []
  | a :: rest =>
    if seen.contains a.url then filterDuplicates seen rest
    else a :: filterDuplicates (a.url :: seen) rest

/-- Outcome of one `discovery.query(company)` call. -/
inductive DiscoveryOutcome where
  | success (results : List RawResult)
  | failure (err : String)
deriving DecidableEq, Repr

/-- The per-company article data passed to `updateStocksData`. -/
structure ArticleDatum where
  company : String
  articles : List Article
deriving DecidableEq, Repr

/-- The successful article data accumulated by the callbacks of
`getArticleDataForCompanies` (stockUpdate.js:429-435), in company order. -/
def discoverySuccesses (companies : List String)
    (query : String → DiscoveryOutcome) : List ArticleDatum :=
  companies.filterMap fun c =>
    match query c with
    | DiscoveryOutcome.success results =>
      some { company := c, articles := filterDuplicates [] (parseResults results) }
    | DiscoveryOutcome.failure _ => none

/-- The errors accumulated by the callbacks of `getArticleDataForCompanies`
(stockUpdate.js:430-431), in company order. -/
def discoveryErrors (companies : List String)
    (query : String → DiscoveryOutcome) : List String :=
  companies.filterMap fun c =>
    match query c with
    | DiscoveryOutcome.failure e => some e
    | DiscoveryOutcome.success _ => none

/-- `Array.prototype.join()` with its default separator. -/
def joinErrors : List String → String
  | [] => ""
  | [e] => e
  | e :: rest => e ++ "," ++ joinErrors rest

/-- `getArticleDataForCompanies` (stockUpdate.js:420-448): fan out one
discovery query per company; `Promise.all` over the raw query promises calls
the final callback with just the accumulated article data when every query
succeeded, and with the joined error list as second argument otherwise. -/
def getArticleDataForCompanies (companies : List String)
    (query : String → DiscoveryOutcome) : List ArticleDatum × Option String :=
  let articleData := discoverySuccesses companies query
  let errors := discoveryErrors companies query
  if errors.isEmpty then (articleData, none)
  else (articleData, some (joinErrors errors))

/-- `findTickerForCompanyWithName` (stockUpdate.js:455-464); the configured
company list (`config.companies`, config.js is not in the sources) is the
parameter `configCompanies` of (name, ticker) entries. -/
def findTickerForCompanyWithName (configCompanies : List (String × String))
    (name : String) : Option String :=
  match configCompanies.find? (fun c => name == c.1) with
  | some c => some c.2
  | none => none

/-- Record creation in `updateStocksData` (stockUpdate.js:272-279): the `||`
falls back to `'No Ticker Found'` when the lookup is undefined or falsy. -/
def newStockRecord (configCompanies : List (String × String))
    (company : String) : StockRecord :=
  { company := company,
    ticker :=
      match findTickerForCompanyWithName configCompanies company with
      | some t => if t = "" then "No Ticker Found" else t
      | none => "No Ticker Found",
    history := [], price_history := [] }

/-- Modelled from the spec: `utils.findStockDatum` (app/util/utils.js is not
in the sources) locates the stock record for a company: the first record
whose `company` field equals the name. -/
def findStockDatum (stockData : List StockRecord) (company : String) : Option StockRecord :=
  stockData.find? (fun r => r.company == company)

/-- In-place mutation of the located record, modelled by replacing the first
record with the given company. -/
def replaceFirstByCompany (company : String) (updated : StockRecord) :
    List StockRecord → List StockRecord
  | [] => []
  | r :: rest =>
    if r.company == company then updated :: rest
    else r :: replaceFirstByCompany company updated rest

/-- One iteration of the `updateStocksData` loop (stockUpdate.js:265-336):
locate the record for the company (appending a fresh one when absent,
stockUpdate.js:272-279) and process it. -/
def updateStep (maxA : Nat) (configCompanies : List (String × String))
    (fetch : String → FetchResult)
    (prices : String → Except String (List (String × Int)))
    (results : List StockRecord) (articleDatum : ArticleDatum) : List StockRecord :=
  match findStockDatum results articleDatum.company with
  | some stockDatum =>
    replaceFirstByCompany articleDatum.company
      (processCompany maxA fetch prices stockDatum articleDatum.articles) results
  | none =>
    results ++ [processCompany maxA fetch prices
      (newStockRecord configCompanies articleDatum.company) articleDatum.articles]

/-- `updateStocksData` (stockUpdate.js:260-346): process every company's
article data against the records; every per-company promise is caught, so the
returned promise always resolves with the updated results. -/
def updateStocksData (maxA : Nat) (configCompanies : List (String × String))
    (fetch : String → FetchResult)
    (prices : String → Except String (List (String × Int)))
    (articleData : List ArticleDatum) (stockData : List StockRecord) : List StockRecord :=
  articleData.foldl (updateStep maxA configCompanies fetch prices) stockData

/-- Settled state of the promise returned by `StockUpdate.run`. -/
inductive RunOutcome where
  | resolved (results : List StockRecord)
  | rejectedRun
deriving DecidableEq, Repr

/-- `StockUpdate.run` (stockUpdate.js:473-515).  `search` is the outcome of
`stock_db.search()` with the rows' documents already extracted.  The run
rejects when the project is not configured, when the store listing fails,
when there are no companies to update, and when `getArticleDataForCompanies`
reports a truthy (non-empty) joined error; otherwise it resolves with the
results of `updateStocksData`. -/
def StockUpdate.run (configured : Bool) (maxA : Nat)
    (configCompanies : List (String × String))
    (fetch : String → FetchResult)
    (prices : String → Except String (List (String × Int)))
    (query : String → DiscoveryOutcome)
    (search : Except String (List StockRecord))
    (companies : Option (List String)) : RunOutcome :=
  if configured = false then RunOutcome.rejectedRun
  else
    match search with
    | Except.error _ => RunOutcome.rejectedRun
    | Except.ok docs =>
      let companyList :=
        match companies with
        | none => docs.map (fun doc => doc.company)
        | some cs => cs
      if companyList.length > 0 then
        match getArticleDataForCompanies companyList query with
        | (articleData, none) =>
          RunOutcome.resolved
            (updateStocksData maxA configCompanies fetch prices articleData docs)
        | (articleData, some err) =>
          if err = "" then
            RunOutcome.resolved
              (updateStocksData maxA configCompanies fetch prices articleData docs)
          else RunOutcome.rejectedRun
      else RunOutcome.rejectedRun

/-- Strictly-ascending-by-date order on price pairs: the sortedness
assumption of the price-alignment claims (price dates are unique, being the
keys of the price map). -/
def pairDateLt (p q : PricePair) : Prop :=
  avDateStringToDate p.date < avDateStringToDate q.date

instance : DecidableRel pairDateLt := fun p q =>
  inferInstanceAs (Decidable (avDateStringToDate p.date < avDateStringToDate q.date))

/-- The frame relation of the image-attachment step: `b` is `a` with every
field unchanged except possibly `imageURL`, and `imageURL` changes only to
the image of a result in `imgResults` whose `url` matches `a`. -/
def attachFrame (imgResults : List ImageResult) (a b : Article) : Prop :=
  b.url = a.url ∧ b.sentiment = a.sentiment ∧ b.date = a.date ∧ b.title = a.title ∧
  b.source = a.source ∧
  (b.imageURL ≠ a.imageURL →
    ∃ r ∈ imgResults, r.url = a.url ∧ b.imageURL = some r.imageURL)

/-! ## Theorems -/

theorem articleContains_iff (a : Article) (l : List Article) :
    articleContains a l = true ↔ ∃ b ∈ l, a.url = b.url := by
  induction l with
  | nil => simp [articleContains]
  | cons b rest ih =>
    by_cases hab : a.url = b.url <;> simp [articleContains, hab, ih]

theorem sortArticles_mem (a : Article) (l : List Article) :
    a ∈ sortArticles l ↔ a ∈ l :=
  List.mem_insertionSort articleLe

theorem sortArticles_length (l : List Article) :
    (sortArticles l).length = l.length :=
  List.length_insertionSort articleLe l

/-- C7: the new-article filter keeps exactly the incoming articles whose URL
does not occur among the existing articles' URLs (by exact string equality),
and on the spec's example it yields only the article with url `"c"`. -/
theorem filterNewArticles_spec :
    (∀ (incoming existing : List Article) (a : Article),
        a ∈ filterNewArticles incoming existing ↔
          a ∈ incoming ∧ a.url ∉ existing.map Article.url) ∧
    filterNewArticles [{url := "b"}, {url := "c"}] [{url := "a"}, {url := "b"}] =
      [({url := "c"} : Article)] := by
  constructor
  · intro incoming existing a
    simp only [filterNewArticles, List.mem_filter, Bool.not_eq_true',
      ← Bool.not_eq_true, articleContains_iff, List.mem_map]
    constructor
    · rintro ⟨hin, hnc⟩
      exact ⟨hin, fun ⟨b, hb, hurl⟩ => hnc ⟨b, hb, hurl.symm⟩⟩
    · rintro ⟨hin, hnm⟩
      exact ⟨hin, fun ⟨b, hb, hurl⟩ => hnm ⟨b, hb, hurl.symm⟩⟩
  · decide

/-- C7 witness: the article with url `"c"` is among the new articles of the
spec's example. -/
theorem filterNewArticles_spec_witness :
    ({url := "c"} : Article) ∈
      filterNewArticles [{url := "b"}, {url := "c"}] [{url := "a"}, {url := "b"}] :=
  (filterNewArticles_spec.1 _ _ _).mpr ⟨by decide, by decide⟩

/-- C6: after every insertion batch the stored history has length at most the
configured maximum; when the sorted merge exceeds the maximum, the stored
result has length exactly the maximum, is the most-recent-first sorted merge
truncated to the maximum, and every evicted article's date is at most every
kept article's date (the oldest entries are the ones evicted). -/
theorem mergeArticles_cap (maxA : Nat) (existing newOnes : List Article) :
    (mergeArticles maxA existing newOnes).length ≤ maxA ∧
    ((sortArticles (existing ++ newOnes)).length > maxA →
      (mergeArticles maxA existing newOnes).length = maxA ∧
      mergeArticles maxA existing newOnes = (sortArticles (existing ++ newOnes)).take maxA ∧
      ∀ a ∈ mergeArticles maxA existing newOnes,
        ∀ b ∈ (sortArticles (existing ++ newOnes)).drop maxA,
          avDateStringToDate b.date ≤ avDateStringToDate a.date) := by
  have htake : mergeArticles maxA existing newOnes =
      if (sortArticles (existing ++ newOnes)).length > maxA
      then (sortArticles (existing ++ newOnes)).take maxA
      else sortArticles (existing ++ newOnes) := rfl
  by_cases h : (sortArticles (existing ++ newOnes)).length > maxA
  · rw [htake, if_pos h]
    refine ⟨?_, fun _ => ⟨?_, rfl, ?_⟩⟩
    · rw [List.length_take]; exact min_le_left _ _
    · rw [List.length_take]; exact Nat.min_eq_left (le_of_lt h)
    · intro a ha b hb
      have hs : List.Pairwise articleLe (sortArticles (existing ++ newOnes)) :=
        List.sorted_insertionSort articleLe (existing ++ newOnes)
      have hs2 : List.Pairwise articleLe
          ((sortArticles (existing ++ newOnes)).take maxA ++
            (sortArticles (existing ++ newOnes)).drop maxA) := by
        rw [List.take_append_drop]; exact hs
      exact (List.pairwise_append.mp hs2).2.2 a ha b hb
  · rw [htake, if_neg h]
    exact ⟨Nat.le_of_not_lt h, fun hcon => absurd hcon h⟩

/-- C6 witness: merging one existing and one new article under maximum 1
truncates the history to length exactly 1. -/
theorem mergeArticles_cap_witness :
    (mergeArticles 1 [{url := "a", date := "2018-01-02"}]
      [{url := "b", date := "2018-01-01"}]).length = 1 :=
  ((mergeArticles_cap 1 _ _).2 (by decide)).1

/-- C5 counterexample: with configured maximum 1, merging an existing history
holding a newer article with an incoming batch holding one older article
evicts the incoming article, so remerging the same batch finds it new again
(the claim's unconditional idempotence fails). -/
theorem merge_idempotence_counterexample :
    filterNewArticles [{url := "b", date := "2018-01-01"}]
      (mergeArticlesFull 1 [{url := "a", date := "2018-01-02"}]
        [{url := "b", date := "2018-01-01"}]) ≠ [] := by decide

/-- C5 amended: when the merged history does not exceed the configured
maximum (no truncation occurs), merging the same incoming batch a second time
yields no new articles — every incoming URL is already present in the history
produced by the first merge. -/
theorem merge_idempotent_when_under_cap (maxA : Nat) (existing incoming : List Article)
    (h : (existing ++ filterNewArticles incoming existing).length ≤ maxA) :
    filterNewArticles incoming (mergeArticlesFull maxA existing incoming) = [] := by
  have hmerged : mergeArticlesFull maxA existing incoming =
      sortArticles (existing ++ filterNewArticles incoming existing) := by
    have hlen : (sortArticles (existing ++ filterNewArticles incoming existing)).length ≤
        maxA := by rw [sortArticles_length]; exact h
    simp only [mergeArticlesFull, mergeArticles]
    rw [if_neg (not_lt.mpr hlen)]
  rw [hmerged]
  unfold filterNewArticles
  rw [List.filter_eq_nil_iff]
  intro a ha
  simp only [Bool.not_eq_true', ← Bool.not_eq_true, not_not]
  by_cases hc : articleContains a existing = true
  · obtain ⟨b, hb, hurl⟩ := (articleContains_iff a existing).mp hc
    exact (articleContains_iff _ _).mpr
      ⟨b, (sortArticles_mem _ _).mpr (List.mem_append.mpr (Or.inl hb)), hurl⟩
  · have ha' : a ∈ filterNewArticles incoming existing := by
      simp only [filterNewArticles, List.mem_filter]
      exact ⟨ha, by simp [Bool.not_eq_true' .., hc]⟩
    exact (articleContains_iff _ _).mpr
      ⟨a, (sortArticles_mem _ _).mpr (List.mem_append.mpr (Or.inr ha')), rfl⟩

/-- C5 witness (amended): with maximum 2 the same merge is idempotent. -/
theorem merge_idempotent_when_under_cap_witness :
    filterNewArticles [{url := "b", date := "2018-01-01"}]
      (mergeArticlesFull 2 [{url := "a", date := "2018-01-02"}]
        [{url := "b", date := "2018-01-01"}]) = [] :=
  merge_idempotent_when_under_cap 2 _ _ (by decide)

/-- While every scanned pair's date is strictly before the target date, the
loop of `getPairForDate` keeps scanning; falling out of a fully scanned
segment leaves the hoisted `thisPair` at the segment's last element. -/
theorem getPairLoop_all_lt (date : String) (rest : List PricePair) (l1 : List PricePair) :
    ∀ (prev : Option PricePair),
      (∀ q ∈ l1, avDateStringToDate q.date < avDateStringToDate date) →
      getPairLoop date prev (l1 ++ rest) = getPairLoop date (l1.getLast?.or prev) rest := by
  induction l1 with
  | nil => intro prev _; simp [getPairLoop]
  | cons q l1 ih =>
    intro prev h
    have hq := h q (List.mem_cons_self q l1)
    have hne : ¬ q.date = date := by
      intro he; rw [he] at hq; exact lt_irrefl _ hq
    have hnlt : ¬ avDateStringToDate date < avDateStringToDate q.date := lt_asymm hq
    have step : getPairLoop date prev ((q :: l1) ++ rest) =
        getPairLoop date (some q) (l1 ++ rest) := by
      simp [getPairLoop, hne, hnlt]
    rw [step, ih (some q) (fun r hr => h r (List.mem_cons_of_mem q hr))]
    congr 1
    cases hL : l1.getLast? with
    | none => simp [List.getLast?_cons, hL]
    | some y => simp [List.getLast?_cons, hL]

/-- C3: on the empty pair list the lookup is absent for every target date,
and on a non-empty ascending list whose every date is strictly before the
target date the lookup returns the last pair. -/
theorem getPairForDate_empty_and_after_all (date : String) (l : List PricePair)
    (_hsorted : l.Pairwise pairDateLt) :
    getPairForDate date [] = none ∧
    (l ≠ [] → (∀ p ∈ l, avDateStringToDate p.date < avDateStringToDate date) →
      getPairForDate date l = l.getLast?) := by
  refine ⟨?_, ?_⟩
  · by_cases hd : date = "" <;> simp [getPairForDate, hd, getPairLoop]
  · intro hne hall
    obtain ⟨p0, hp0⟩ := List.exists_mem_of_ne_nil l hne
    have hd : ¬ date = "" := by
      intro he
      have hlt := hall p0 hp0
      rw [he] at hlt
      exact List.Lex.not_nil_right _ _ hlt
    obtain ⟨lastPair, hlast⟩ : ∃ y, l.getLast? = some y := by
      cases hL : l.getLast? with
      | none => exact absurd (List.getLast?_eq_none_iff.mp hL) hne
      | some y => exact ⟨y, rfl⟩
    have hloop : getPairLoop date none l = Sum.inr l.getLast? := by
      have := getPairLoop_all_lt date [] l none hall
      rw [List.append_nil] at this
      rw [this, Option.or_none]
      rfl
    have hmem : lastPair ∈ l := List.mem_of_mem_getLast? (by rw [hlast]; rfl)
    simp only [getPairForDate, if_neg hd, hloop, hlast]
    rw [if_pos (hall lastPair hmem)]

/-- C3 witness: a date after both pairs of a two-pair list returns the last
pair. -/
theorem getPairForDate_empty_and_after_all_witness :
    getPairForDate "2018-02-05" [⟨"2018-01-20", 10⟩, ⟨"2018-01-30", 15⟩] =
      ([⟨"2018-01-20", 10⟩, ⟨"2018-01-30", 15⟩] : List PricePair).getLast? :=
  (getPairForDate_empty_and_after_all "2018-02-05" _ (by decide)).2 (by decide) (by decide)

/-- C4: over an ascending pair list (and a non-empty target date string,
the source's falsy-string guard returning absent for `""`), an exact date
match returns that pair; otherwise, at the first pair strictly after the
target the lookup returns a synthetic pair dated at the target whose price
is the immediately preceding pair's price when one exists, else that first
later pair's price. -/
theorem getPairForDate_exact_and_synthetic (date : String) (hd : date ≠ "")
    (l1 l2 : List PricePair) (p : PricePair)
    (hsorted : (l1 ++ p :: l2).Pairwise pairDateLt) :
    (p.date = date → getPairForDate date (l1 ++ p :: l2) = some p) ∧
    ((∀ q ∈ l1, avDateStringToDate q.date < avDateStringToDate date) →
      avDateStringToDate date < avDateStringToDate p.date →
      getPairForDate date (l1 ++ p :: l2) =
        some { date := date, price := (l1.getLast?.getD p).price }) := by
  constructor
  · intro hpd
    have hall : ∀ q ∈ l1, avDateStringToDate q.date < avDateStringToDate date := by
      intro q hq
      have hqp : avDateStringToDate q.date < avDateStringToDate p.date :=
        (List.pairwise_append.mp hsorted).2.2 q hq p (List.mem_cons_self p l2)
      rw [hpd] at hqp
      exact hqp
    have hloop := getPairLoop_all_lt date (p :: l2) l1 none hall
    simp only [getPairForDate, if_neg hd, hloop, getPairLoop, if_pos hpd]
  · intro hall hlt
    have hloop := getPairLoop_all_lt date (p :: l2) l1 none hall
    have hpne : ¬ p.date = date := by
      intro he; rw [he] at hlt; exact lt_irrefl _ hlt
    simp only [getPairForDate, if_neg hd, hloop, getPairLoop, if_neg hpne, if_pos hlt]
    cases hL : l1.getLast? with
    | none => simp [hL]
    | some y => simp [hL]

/-- C4 witness: the spec's nearest-prior example (synthetic pair dated
2018-01-26 at the 2018-01-25 price) and its exact-match example. -/
theorem getPairForDate_exact_and_synthetic_witness :
    getPairForDate "2018-01-26"
        [⟨"2018-01-20", 10⟩, ⟨"2018-01-25", 12⟩, ⟨"2018-01-30", 15⟩] =
      some ⟨"2018-01-26", 12⟩ ∧
    getPairForDate "2018-01-25"
        [⟨"2018-01-20", 10⟩, ⟨"2018-01-25", 12⟩, ⟨"2018-01-30", 15⟩] =
      some ⟨"2018-01-25", 12⟩ := by
  constructor
  · exact (getPairForDate_exact_and_synthetic "2018-01-26" (by decide)
      [⟨"2018-01-20", 10⟩, ⟨"2018-01-25", 12⟩] [] ⟨"2018-01-30", 15⟩
      (by decide)).2 (by decide) (by decide)
  · exact (getPairForDate_exact_and_synthetic "2018-01-25" (by decide)
      [⟨"2018-01-20", 10⟩] [⟨"2018-01-30", 15⟩] ⟨"2018-01-25", 12⟩
      (by decide)).1 rfl

theorem attachFrame_refl (imgResults : List ImageResult) (a : Article) :
    attachFrame imgResults a a := by
  simp [attachFrame]

theorem forall2_attachOne (r : ImageResult) (l : List Article) :
    List.Forall₂ (attachFrame [r]) l (attachOne r l) := by
  induction l with
  | nil => exact List.Forall₂.nil
  | cons a rest ih =>
    by_cases h : a.url = r.url
    · rw [attachOne, if_pos h]
      refine List.Forall₂.cons ?_ (List.forall₂_same.mpr (fun x _ => attachFrame_refl _ x))
      exact ⟨rfl, rfl, rfl, rfl, rfl, fun _ => ⟨r, List.mem_singleton_self r, h.symm, rfl⟩⟩
    · rw [attachOne, if_neg h]
      exact List.Forall₂.cons (attachFrame_refl _ a) ih

theorem attachFrame_comp {rs1 rs2 rs : List ImageResult}
    (h1 : ∀ x ∈ rs1, x ∈ rs) (h2 : ∀ x ∈ rs2, x ∈ rs) {a b c : Article}
    (f1 : attachFrame rs1 a b) (f2 : attachFrame rs2 b c) : attachFrame rs a c := by
  obtain ⟨u1, s1, d1, t1, o1, i1⟩ := f1
  obtain ⟨u2, s2, d2, t2, o2, i2⟩ := f2
  refine ⟨u2.trans u1, s2.trans s1, d2.trans d1, t2.trans t1, o2.trans o1, ?_⟩
  intro hca
  by_cases hcb : c.imageURL = b.imageURL
  · have hba : b.imageURL ≠ a.imageURL := fun he => hca (hcb.trans he)
    obtain ⟨r, hr, hru, hb⟩ := i1 hba
    exact ⟨r, h1 r hr, hru, hcb.trans hb⟩
  · obtain ⟨r, hr, hru, hc⟩ := i2 hcb
    exact ⟨r, h2 r hr, hru.trans u1, hc⟩

theorem forall2_attachFrame_comp {rs1 rs2 rs : List ImageResult}
    (h1 : ∀ x ∈ rs1, x ∈ rs) (h2 : ∀ x ∈ rs2, x ∈ rs) :
    ∀ {l m n : List Article}, List.Forall₂ (attachFrame rs1) l m →
      List.Forall₂ (attachFrame rs2) m n → List.Forall₂ (attachFrame rs) l n := by
  intro l m n f g
  induction f generalizing n with
  | nil => cases g; exact List.Forall₂.nil
  | cons hab hrest ih =>
    cases g with
    | cons hbc hrest2 => exact List.Forall₂.cons (attachFrame_comp h1 h2 hab hbc) (ih hrest2)

/-- C10: the image-attachment step relates each new article to its attached
version with every field except `imageURL` unchanged, `imageURL` changing
only to the image of a resolved result whose `url` matches the article; and
`insertNewArticles` changes only the record's history, feeding the existing
history into the merge untouched by the attachment. -/
theorem attachImages_frame :
    (∀ (newArticles : List Article) (imgResults : List ImageResult),
      List.Forall₂ (attachFrame imgResults) newArticles
        (attachImages newArticles imgResults)) ∧
    (∀ (maxA : Nat) (fetch : String → FetchResult) (d : StockRecord)
        (na : List Article),
      insertNewArticles maxA fetch d na =
        { d with history :=
            mergeArticles maxA d.history (attachImages na (getImages fetch na)) }) := by
  constructor
  · intro newArticles imgResults
    induction imgResults generalizing newArticles with
    | nil => exact List.forall₂_same.mpr (fun x _ => attachFrame_refl _ x)
    | cons r rs ih =>
      have hstep : attachImages newArticles (r :: rs) =
          attachImages (attachOne r newArticles) rs := rfl
      rw [hstep]
      refine forall2_attachFrame_comp ?_ ?_ (forall2_attachOne r newArticles)
        (ih (attachOne r newArticles))
      · intro x hx
        rw [List.mem_singleton] at hx
        rw [hx]
        exact List.mem_cons_self r rs
      · intro x hx
        exact List.mem_cons_of_mem r hx
  · intro maxA fetch d na
    rfl

/-- C10 witness: a batch with one article and one matching resolved image. -/
theorem attachImages_frame_witness :
    List.Forall₂ (attachFrame [⟨"u", "http://i/img.png"⟩])
      [{url := "u", title := "t"}]
      (attachImages [{url := "u", title := "t"}] [⟨"u", "http://i/img.png"⟩]) :=
  attachImages_frame.1 _ _

/-- C2 counterexample: on a transport error the per-article image promise is
rejected, not resolved absent — the claim's per-URL never-rejects contract
fails. -/
theorem getImageForArticle_rejects_counterexample :
    getImageForArticle (fun _ => FetchResult.transportError "ECONNRESET")
      {url := "http://example.com/news/1"} = PromiseOutcome.rejectedP := by decide

/-- C2 amended: the per-article image promise rejects exactly on a transport
error (the batch variant catches that rejection, so at the batch level the
failure degrades to absence); when the page loads but no truthy image src is
found, the promise resolves with no value (absent). -/
theorem getImageForArticle_outcomes (fetch : String → FetchResult) (article : Article) :
    (getImageForArticle fetch article = PromiseOutcome.rejectedP ↔
      ∃ e, fetch article.url = FetchResult.transportError e) ∧
    (∀ page, fetch article.url = FetchResult.success page →
      truthy (effectiveImgSrc page) = false →
      getImageForArticle fetch article = PromiseOutcome.resolvedWith none) := by
  constructor
  · constructor
    · intro hrej
      cases h : fetch article.url with
      | transportError e => exact ⟨e, rfl⟩
      | success page =>
        exfalso
        cases hsrc : effectiveImgSrc page with
        | none => simp [getImageForArticle, h, hsrc] at hrej
        | some s =>
          by_cases hs : s = "" <;> simp [getImageForArticle, h, hsrc, hs] at hrej
    · rintro ⟨e, he⟩
      simp [getImageForArticle, he]
  · intro page hp htr
    have hcase : effectiveImgSrc page = none ∨ effectiveImgSrc page = some "" := by
      cases hsrc : effectiveImgSrc page with
      | none => exact Or.inl rfl
      | some s =>
        right
        rw [hsrc] at htr
        simp only [truthy, Bool.not_eq_false'] at htr
        rw [eq_of_beq htr]
    rcases hcase with hsrc | hsrc <;> simp [getImageForArticle, hp, hsrc]

/-- C2 witness (amended): a page with no images resolves absent. -/
theorem getImageForArticle_outcomes_witness :
    getImageForArticle (fun _ => FetchResult.success ⟨none, none⟩)
      ({url := "http://x"} : Article) = PromiseOutcome.resolvedWith none :=
  (getImageForArticle_outcomes (fun _ => FetchResult.success ⟨none, none⟩)
    {url := "http://x"}).2 ⟨none, none⟩ rfl rfl

/-- C9: a non-absolute image src resolves to the article URL's scheme+host
joined by a single `/` to the src with at most one leading slash stripped;
in particular `/img/a.png` on `http://example.com/news/1` resolves to
`http://example.com/img/a.png`. -/
theorem relative_image_resolution (fetch : String → FetchResult) (article : Article)
    (page : Page) (src : String)
    (hf : fetch article.url = FetchResult.success page)
    (hsrc : effectiveImgSrc page = some src) (hne : src ≠ "")
    (habs : extractHTTPURL src = none) :
    getImageForArticle fetch article =
      PromiseOutcome.resolvedWith (some
        ⟨article.url,
          extractDomain article.url ++ "/" ++
            (if strStartsWith src "/" then src.drop 1 else src)⟩) ∧
    getImageForArticle (fun _ => FetchResult.success ⟨some "/img/a.png", none⟩)
        ({url := "http://example.com/news/1"} : Article) =
      PromiseOutcome.resolvedWith
        (some ⟨"http://example.com/news/1", "http://example.com/img/a.png"⟩) := by
  constructor
  · simp [getImageForArticle, hf, hsrc, hne, habs]
  · decide

/-- C9 witness: the spec's example, obtained through the theorem. -/
theorem relative_image_resolution_witness :
    getImageForArticle (fun _ => FetchResult.success ⟨some "/img/a.png", none⟩)
        ({url := "http://example.com/news/1"} : Article) =
      PromiseOutcome.resolvedWith
        (some ⟨"http://example.com/news/1", "http://example.com/img/a.png"⟩) :=
  (relative_image_resolution (fun _ => FetchResult.success ⟨some "/img/a.png", none⟩)
    {url := "http://example.com/news/1"} ⟨some "/img/a.png", none⟩ "/img/a.png"
    rfl rfl (by decide) (by decide)).2

/-- C8: when the price-history fetch for a company's ticker fails and there
are new articles, the company's record is still updated by merging exactly
the new articles into its history, and its stored price history is left as
it was (not replaced or trimmed); the per-company step completes normally,
so the batch continues. -/
theorem price_failure_soft (maxA : Nat) (fetch : String → FetchResult)
    (prices : String → Except String (List (String × Int)))
    (record : StockRecord) (articles : List Article) (e : String)
    (hnew : filterNewArticles articles record.history ≠ [])
    (hfail : prices record.ticker = Except.error e) :
    processCompany maxA fetch prices record articles =
      ⟨record.company, record.ticker,
        mergeArticles maxA record.history
          (attachImages (filterNewArticles articles record.history)
            (getImages fetch (filterNewArticles articles record.history))),
        record.price_history⟩ ∧
    (processCompany maxA fetch prices record articles).price_history =
      record.price_history := by
  have hlen : (filterNewArticles articles record.history).length > 0 :=
    List.length_pos.mpr hnew
  obtain ⟨e2, he2⟩ : ∃ e2, getLatestStockPrices prices record = Except.error e2 := by
    unfold getLatestStockPrices
    by_cases ht : record.ticker = ""
    · exact ⟨"", by rw [if_pos ht]⟩
    · refine ⟨e, ?_⟩
      rw [if_neg ht, hfail]
  have h1 : processCompany maxA fetch prices record articles =
      insertNewArticles maxA fetch record (filterNewArticles articles record.history) := by
    simp only [processCompany]
    rw [if_pos hlen, he2]
  constructor
  · rw [h1]; rfl
  · rw [h1]; rfl

/-- C8 witness: price fetch fails, yet the new article is merged and the
stored price history survives untouched. -/
theorem price_failure_soft_witness :
    (processCompany 5 (fun _ => FetchResult.transportError "net")
      (fun _ => Except.error "fail")
      ⟨"X", "T", [], [("2018-01-01", 5)]⟩
      [{url := "u", date := "2018-01-02"}]).price_history = [("2018-01-01", 5)] :=
  (price_failure_soft 5 (fun _ => FetchResult.transportError "net")
    (fun _ => Except.error "fail") ⟨"X", "T", [], [("2018-01-01", 5)]⟩
    [{url := "u", date := "2018-01-02"}] "fail" (by decide) rfl).2

/-- C1 counterexample: with three companies of which exactly one discovery
query fails (non-empty error) and two succeed, `run` rejects instead of
resolving with the successes. -/
theorem run_discovery_failure_counterexample :
    StockUpdate.run true 300 []
      (fun _ => FetchResult.transportError "net")
      (fun _ => Except.error "no prices")
      (fun c => if c = "A" then DiscoveryOutcome.failure "query failed"
        else DiscoveryOutcome.success [⟨"http://n/1", "positive", "2018-01-01", "t", "s"⟩])
      (Except.ok [⟨"A", "AAA", [], []⟩, ⟨"B", "BBB", [], []⟩, ⟨"C", "CCC", [], []⟩])
      (some ["A", "B", "C"]) = RunOutcome.rejectedRun := by decide

/-- C1 amended: whenever exactly one company's discovery query fails with a
non-empty error (the others succeeding, so the error list is that single
error), the aggregated error is truthy and `run` rejects; the successful
companies' data is discarded for that run rather than resolved. -/
theorem run_rejects_on_discovery_failure (maxA : Nat)
    (configCompanies : List (String × String)) (fetch : String → FetchResult)
    (prices : String → Except String (List (String × Int)))
    (query : String → DiscoveryOutcome) (docs : List StockRecord)
    (companies : List String) (e : String)
    (herr : discoveryErrors companies query = [e]) (hne : e ≠ "") :
    StockUpdate.run true maxA configCompanies fetch prices query
      (Except.ok docs) (some companies) = RunOutcome.rejectedRun := by
  have hcne : companies ≠ [] := by
    intro h
    rw [h] at herr
    simp [discoveryErrors] at herr
  have hlen : companies.length > 0 := List.length_pos.mpr hcne
  have hga : getArticleDataForCompanies companies query =
      (discoverySuccesses companies query, some e) := by
    unfold getArticleDataForCompanies
    rw [herr]
    simp [joinErrors]
  simp [StockUpdate.run, hga, hlen, hne]

/-- C1 witness (amended): two companies, one failing discovery, run rejects. -/
theorem run_rejects_on_discovery_failure_witness :
    StockUpdate.run true 10 [("B", "BBB")]
      (fun _ => FetchResult.transportError "net")
      (fun _ => Except.error "no prices")
      (fun c => if c = "A" then DiscoveryOutcome.failure "boom"
        else DiscoveryOutcome.success [])
      (Except.ok [⟨"A", "AAA", [], []⟩, ⟨"B", "BBB", [], []⟩])
      (some ["A", "B"]) = RunOutcome.rejectedRun :=
  run_rejects_on_discovery_failure 10 [("B", "BBB")]
    (fun _ => FetchResult.transportError "net") (fun _ => Except.error "no prices")
    (fun c => if c = "A" then DiscoveryOutcome.failure "boom"
      else DiscoveryOutcome.success [])
    [⟨"A", "AAA", [], []⟩, ⟨"B", "BBB", [], []⟩] ["A", "B"] "boom"
    (by decide) (by decide)
